import Mathlib

/-!
# blmc_drivers: motor command layer and CAN driver loop

A shallow embedding of `src/src/motor.cpp` (`Motor`, `SafeMotor`) and of
`src/new_api/devices/canbus.hpp` (`XenomaiCanbus`), with the properties of the
specification stated and settled over it.

Conventions of the embedding.

* A C++ object is a Lean structure; a member function that mutates the object
  takes the object and returns the new object.
* An external collaborator that is only called (the motor board, the CAN
  socket) is a log of the calls made on it.
* `double` is modelled by `Double` below: the code only compares doubles with
  `operator<` and negates them, and both are exact in IEEE-754 arithmetic.
-/

set_option autoImplicit false

namespace blmc_drivers

/-! ## `double` -/

/-- The values of a C++ `double`, as far as `operator<` and unary minus see
them: not-a-number, the two infinities, and the finite values.  Finite values
are carried as rationals (every finite double is one; the theorems below
quantify over all rationals, the concrete inputs are doubles).  The two signed
zeros compare equal under every comparison and are identified. -/
inductive Double where
  | nan : Double
  | ninf : Double
  | fin (q : ℚ) : Double
  | pinf : Double
  deriving DecidableEq

namespace Double

/-- The IEEE-754 `operator<` on doubles: false as soon as one side is NaN. -/
def lt : Double → Double → Bool
  | nan, _ => false
  | _, nan => false
  | ninf, ninf => false
  | ninf, _ => true
  | fin _, ninf => false
  | fin a, fin b => decide (a < b)
  | fin _, pinf => true
  | pinf, _ => false

/-- The IEEE-754 `operator<=` on doubles: false as soon as one side is NaN. -/
def le : Double → Double → Bool
  | nan, _ => false
  | _, nan => false
  | ninf, _ => true
  | fin _, ninf => false
  | fin a, fin b => decide (a ≤ b)
  | fin _, pinf => true
  | pinf, pinf => true
  | pinf, _ => false

/-- Unary minus on doubles. -/
def neg : Double → Double
  | nan => nan
  | ninf => pinf
  | fin q => fin (-q)
  | pinf => ninf

/-- The double `0.0`. -/
def zero : Double := fin 0

end Double

/-- The function `std::min(a, b)` of `<algorithm>`: `(b < a) ? b : a`. -/
def std_min (a b : Double) : Double := if Double.lt b a then b else a

/-- The function `std::max(a, b)` of `<algorithm>`: `(a < b) ? b : a`. -/
def std_max (a b : Double) : Double := if Double.lt a b then b else a

/-- Membership of a double in the closed interval `[lo, hi]`. -/
def in_closed_interval (lo hi v : Double) : Prop :=
  Double.le lo v = true ∧ Double.le v hi = true

instance (lo hi v : Double) : Decidable (in_closed_interval lo hi v) := by
  unfold in_closed_interval; infer_instance

/-! ## The time-indexed channel (`ThreadsafeTimeseries`) -/

/-- The recoverable errors of a non-blocking channel read. -/
inductive ChannelError where
  | NotYetAvailableError : ChannelError
  | EvictedError : ChannelError
  deriving DecidableEq

/-- Modelled from the spec: the class `ThreadsafeTimeseries<T>` of
`utils/threadsafe_timeseries.hpp`, which is not among the source files.  It is
the spec's TimeIndexedChannel: a bounded append-only log whose elements get
contiguous time indices starting at zero.  `appended` counts the `append`
calls so far, `elements` holds the retained elements, oldest first. -/
structure ThreadsafeTimeseries (T : Type) where
  capacity : Nat
  appended : Nat
  elements : List T

namespace ThreadsafeTimeseries

variable {T : Type}

/-- Modelled from the spec: the constructor `ThreadsafeTimeseries(size)`, an
empty channel of fixed capacity. -/
def create (size : Nat) : ThreadsafeTimeseries T :=
  { capacity := size, appended := 0, elements := [] }

/-- Modelled from the spec: `append(value)` assigns the next time index, stores
the value and evicts the oldest entries once the log exceeds the capacity; it
never fails. -/
def append (c : ThreadsafeTimeseries T) (value : T) : ThreadsafeTimeseries T :=
  { capacity := c.capacity
    appended := c.appended + 1
    elements := (c.elements ++ [value]).drop ((c.elements ++ [value]).length - c.capacity) }

/-- Modelled from the spec: `newest_index()`, the highest assigned time index,
the count of appends minus one; the sentinel for the empty channel is `-1`. -/
def newest_index (c : ThreadsafeTimeseries T) : Int := (c.appended : Int) - 1

/-- Modelled from the spec: `next_timeindex()`, the call with which the driver
reads the channel's current time index: the index the next append will get,
one past `newest_index()`. -/
def next_timeindex (c : ThreadsafeTimeseries T) : Int := c.newest_index + 1

/-- Modelled from the spec: the time index of the oldest retained element. -/
def oldest_index (c : ThreadsafeTimeseries T) : Nat := c.appended - c.elements.length

/-- Modelled from the spec: `at(i)`, the non-blocking read by absolute time
index; `NotYetAvailableError` beyond the newest index, `EvictedError` below the
retention window. -/
def at_index (c : ThreadsafeTimeseries T) (i : Nat) : Except ChannelError T :=
  if c.appended ≤ i then .error .NotYetAvailableError
  else if i < c.oldest_index then .error .EvictedError
  else
    match c.elements.get? (i - c.oldest_index) with
    | some v => .ok v
    | none => .error .EvictedError

/-- Modelled from the spec: `current_element()`, the spec's `latest()`: the
element at `newest_index()`.  It blocks while nothing is retained, which is
`none` here. -/
def current_element (c : ThreadsafeTimeseries T) : Option T := c.elements.getLast?

end ThreadsafeTimeseries

/-! ## `Motor` and `SafeMotor` (`src/src/motor.cpp`) -/

/-- Modelled from the spec: the control-channel selectors of
`MotorBoardInterface` that `motor.cpp` names; the declaration of the
enumeration is in a header that is not among the source files. -/
inductive Control where
  | current_target_0 : Control
  | current_target_1 : Control
  deriving DecidableEq

/-- Modelled from the spec: the board abstraction behind `MotorBoardInterface`,
the collaborator with the one operation `set_control(value, channel_selector)`.
It is the log of the `set_control` calls made on it, oldest first. -/
structure MotorBoardInterface where
  calls : List (Double × Control)

/-- Modelled from the spec: `MotorBoardInterface::set_control`, recorded as one
more entry of the board's call log. -/
def MotorBoardInterface.set_control (b : MotorBoardInterface) (value : Double)
    (index : Control) : MotorBoardInterface :=
  { calls := b.calls ++ [(value, index)] }

/-- The class `Motor`: the board it drives and its slot identifier.  The slot
identifier is a `bool`; `false` is `0`. -/
structure Motor where
  board_ : MotorBoardInterface
  motor_id_ : Bool

/-- The constructor `Motor::Motor(board, motor_id)`. -/
def Motor.create (board : MotorBoardInterface) (motor_id : Bool) : Motor :=
  { board_ := board, motor_id_ := motor_id }

/-- The member function `Motor::set_current_target`. -/
def Motor.set_current_target (m : Motor) (current_target : Double) : Motor :=
  if m.motor_id_ = false then
    { m with board_ := m.board_.set_control current_target Control.current_target_0 }
  else
    { m with board_ := m.board_.set_control current_target Control.current_target_1 }

/-- The class `SafeMotor`: a `Motor` with a current limit and the history
channel of the requested currents. -/
structure SafeMotor extends Motor where
  max_current_target_ : Double
  current_target_ : ThreadsafeTimeseries Double

/-- The constructor `SafeMotor::SafeMotor(board, motor_id, max_current_target,
history_length)`. -/
def SafeMotor.create (board : MotorBoardInterface) (motor_id : Bool)
    (max_current_target : Double) (history_length : Nat) : SafeMotor :=
  { toMotor := Motor.create board motor_id
    max_current_target_ := max_current_target
    current_target_ := ThreadsafeTimeseries.create history_length }

/-- The value `safe_current_target` that `SafeMotor::set_current_target`
computes from the request and the limit. -/
def safe_current_target (current_target max_current_target_ : Double) : Double :=
  std_max (std_min current_target max_current_target_) (Double.neg max_current_target_)

/-- The member function `SafeMotor::set_current_target`. -/
def SafeMotor.set_current_target (m : SafeMotor) (current_target : Double) : SafeMotor :=
  let history := m.current_target_.append current_target
  let safe := safe_current_target current_target m.max_current_target_
  { toMotor := m.toMotor.set_current_target safe
    max_current_target_ := m.max_current_target_
    current_target_ := history }

/-- A sequence of `SafeMotor::set_current_target` calls, in call order. -/
def SafeMotor.requests (m : SafeMotor) (xs : List Double) : SafeMotor :=
  xs.foldl SafeMotor.set_current_target m

/-- The clamp as the specification words it: `max(-L, min(L, x))`, with the
`max` and `min` of the C++ library. -/
def spec_clamp (L x : Double) : Double := std_max (Double.neg L) (std_min L x)

/-- The values the board received, in call order. -/
def MotorBoardInterface.values (b : MotorBoardInterface) : List Double :=
  b.calls.map Prod.fst

/-! ## The CAN driver (`src/new_api/devices/canbus.hpp`) -/

/-- What stops a call of the driver from returning: `blocked`, the call waits
on an empty channel and nothing wakes it; `uninitialized`, a read of the
connection cell before it was ever set; `out_of_bounds`, an access beyond an
8-byte buffer, which is undefined behaviour. -/
inductive Fault where
  | blocked : Fault
  | uninitialized : Fault
  | out_of_bounds : Fault
  deriving DecidableEq

/-- An 8-byte buffer, `std::array<uint8_t, 8>` or `uint8_t data[8]`.  A byte
that was never written has an indeterminate value, `none`. -/
abbrev Bytes8 : Type := Fin 8 → Option Nat

/-- The buffer of a default-initialised local: every byte indeterminate. -/
def Bytes8.indeterminate : Bytes8 := fun _ => none

/-- The read `a[i]` of an 8-byte buffer. -/
def Bytes8.read (a : Bytes8) (i : Nat) : Except Fault (Option Nat) :=
  if h : i < 8 then .ok (a ⟨i, h⟩) else .error .out_of_bounds

/-- The write `a[i] = v` of an 8-byte buffer. -/
def Bytes8.write (a : Bytes8) (i : Nat) (v : Option Nat) : Except Fault Bytes8 :=
  if h : i < 8 then .ok (Function.update a ⟨i, h⟩ v) else .error .out_of_bounds

/-- The call `memcpy(dst, src, n)` between two 8-byte buffers: the first `n`
bytes of `dst` become those of `src`. -/
def memcpy (dst src : Bytes8) (n : Nat) : Except Fault Bytes8 :=
  if n ≤ 8 then .ok (fun j => if j.val < n then src j else dst j) else .error .out_of_bounds

/-- The class `CanFrame`. -/
structure CanFrame where
  data : Bytes8
  dlc : Nat
  id : Nat

/-- The frame structure `can_frame_t` of the CAN socket interface. -/
structure can_frame_t where
  can_id : Nat
  can_dlc : Nat
  data : Bytes8

/-- The address structure `sockaddr_can`, with the two members the code sets. -/
structure sockaddr_can where
  can_family : Nat
  can_ifindex : Int
  deriving DecidableEq

/-- The constant `AF_CAN` of the socket interface. -/
def AF_CAN : Nat := 29

/-- The class `CanConnection`. -/
structure CanConnection where
  send_addr : sockaddr_can
  socket : Int
  deriving DecidableEq

/-- One call of `osi::send_to_can_device`: the socket, the frame and the
address handed over, and the time index of the channel element the frame was
built from. -/
structure Transmission where
  socket : Int
  can_frame : can_frame_t
  address : sockaddr_can
  timeindex : Int

/-- What one call of `osi::receive_message_from_can_device` delivers: the
frame, the length of the control data left in the message header (zero when no
timestamp came with the frame) and the timestamp. -/
structure BusMessage where
  can_frame : can_frame_t
  msg_controllen : Nat
  timestamp : Nat

/-- The class `XenomaiCanbus`: its attributes, the log of the frames handed to
the bus, and whether the receive loop thread was started.  The connection cell
is unset, `none`, until the constructor stores the connection. -/
structure XenomaiCanbus where
  connection_info_ : Option CanConnection
  input_ : ThreadsafeTimeseries CanFrame
  input_hash_ : Int
  output_ : ThreadsafeTimeseries CanFrame
  sent : List Transmission
  loop_started : Bool

/-- The results of the device calls that `setup_can` makes, and whether the
code is compiled with `__XENO__` defined. -/
structure RtDev where
  rt_dev_socket : Int
  rt_dev_ioctl_ifindex : Int
  ifr_ifindex : Int
  rt_dev_setsockopt : Int
  rt_dev_bind : Int
  rt_dev_ioctl_take_timestamp : Int
  xeno : Bool

/-- How a call of `setup_can` ends: it returns a value, or it ends the process
with `exit(status)`, after closing the socket or not. -/
inductive Outcome (α : Type) where
  | returned (a : α) : Outcome α
  | exited (status : Int) (closed : Option Int) : Outcome α

/-- The member function `XenomaiCanbus::setup_can`.  The parameter `err_mask`
is a `uint32_t`: the argument is taken modulo `2^32`.  The messages written to
the screen and to `stderr` before `exit(-1)` are left out. -/
def setup_can (dev : RtDev) (_name : String) (err_mask : Nat) : Outcome CanConnection :=
  let ret := dev.rt_dev_socket
  if ret < 0 then .exited (-1) none
  else
    let socket := ret
    let ret := dev.rt_dev_ioctl_ifindex
    if ret < 0 then .exited (-1) (some socket)
    else if err_mask % 4294967296 ≠ 0 ∧ dev.rt_dev_setsockopt < 0 then
      .exited (-1) (some socket)
    else if dev.rt_dev_bind < 0 then .exited (-1) (some socket)
    else if dev.xeno = true ∧ dev.rt_dev_ioctl_take_timestamp ≠ 0 then .exited (-1) (some socket)
    else
      .returned
        { send_addr := { can_family := AF_CAN, can_ifindex := dev.ifr_ifindex }
          socket := socket }

/-- How a call of the constructor ends: the driver object is constructed; or
the construction fails and the failure reaches the caller (an exception); or
the process is ended by `exit(status)` and the caller never gets control back.
The last two carry the attributes as they were at that point. -/
inductive Construction where
  | constructed (driver : XenomaiCanbus) : Construction
  | failed (at_failure : XenomaiCanbus) : Construction
  | process_exit (status : Int) (at_exit : XenomaiCanbus) : Construction

/-- The constructor `XenomaiCanbus::XenomaiCanbus(can_interface_name)`. -/
def XenomaiCanbus.create (dev : RtDev) (can_interface_name : String) : Construction :=
  let input : ThreadsafeTimeseries CanFrame := ThreadsafeTimeseries.create 1000
  let output : ThreadsafeTimeseries CanFrame := ThreadsafeTimeseries.create 1000
  let s : XenomaiCanbus :=
    { connection_info_ := none
      input_ := input
      input_hash_ := input.next_timeindex
      output_ := output
      sent := []
      loop_started := false }
  match setup_can dev can_interface_name 0 with
  | .exited status _ => .process_exit status s
  | .returned can_connection =>
    .constructed { s with connection_info_ := some can_connection, loop_started := true }

/-- The member function `XenomaiCanbus::send_frame`, up to the call of
`osi::send_to_can_device`: the frame it hands to the bus. -/
def send_frame (unstamped_can_frame : CanFrame) : Except Fault can_frame_t :=
  match memcpy Bytes8.indeterminate unstamped_can_frame.data unstamped_can_frame.dlc with
  | .error e => .error e
  | .ok data =>
    .ok { can_id := unstamped_can_frame.id, can_dlc := unstamped_can_frame.dlc, data := data }

/-- The member function `XenomaiCanbus::send_if_input_changed`. -/
def XenomaiCanbus.send_if_input_changed (s : XenomaiCanbus) : Except Fault XenomaiCanbus :=
  let new_hash := s.input_.next_timeindex
  if new_hash ≠ s.input_hash_ then
    match s.input_.current_element with
    | none => .error .blocked
    | some element =>
      match s.connection_info_ with
      | none => .error .uninitialized
      | some connection =>
        match send_frame element with
        | .error e => .error e
        | .ok can_frame =>
          .ok { s with
                sent := s.sent ++ [{ socket := connection.socket, can_frame := can_frame,
                                     address := connection.send_addr,
                                     timeindex := s.input_.newest_index }]
                input_hash_ := new_hash }
  else .ok s

/-- The state of the copy loop of `receive_frame`: the payload of `out_frame`
and the indices the loop has read and written so far. -/
structure CopyState where
  data : Bytes8
  accessed : List Nat

/-- The loop `for (i; i < can_dlc; i++) out_frame.data[i] = can_frame.data[i]`
of `receive_frame`, with `remaining` iterations to go from index `i`. -/
def receive_frame_loop (src : Bytes8) : Nat → Nat → CopyState → Except Fault CopyState
  | 0, _, st => .ok st
  | remaining + 1, i, st =>
    match src.read i with
    | .error e => .error e
    | .ok byte =>
      match st.data.write i byte with
      | .error e => .error e
      | .ok data =>
        receive_frame_loop src remaining (i + 1) { data := data, accessed := st.accessed ++ [i] }

/-- The timestamp `receive_frame` is left with: zero when no control data came
with the frame.  It is not part of the frame returned. -/
def receive_timestamp (msg : BusMessage) : Nat :=
  if msg.msg_controllen = 0 then 0 else msg.timestamp

/-- The member function `XenomaiCanbus::receive_frame`, on the message the
device delivers; next to the frame, the indices the copy loop accessed. -/
def XenomaiCanbus.receive_frame (s : XenomaiCanbus) (msg : BusMessage) :
    Except Fault (CanFrame × List Nat) :=
  match s.connection_info_ with
  | none => .error .uninitialized
  | some _ =>
    let _timestamp := receive_timestamp msg
    match receive_frame_loop msg.can_frame.data msg.can_frame.can_dlc 0
        { data := Bytes8.indeterminate, accessed := [] } with
    | .error e => .error e
    | .ok st =>
      .ok ({ data := st.data, dlc := msg.can_frame.can_dlc, id := msg.can_frame.can_id },
        st.accessed)

/-- One iteration of the loop of `XenomaiCanbus::loop`. -/
def XenomaiCanbus.loop_iteration (s : XenomaiCanbus) (msg : BusMessage) :
    Except Fault XenomaiCanbus :=
  match s.receive_frame msg with
  | .error e => .error e
  | .ok (frame, _) => .ok { s with output_ := s.output_.append frame }

/-- The operations on a constructed driver: a producer appends a frame to the
send channel `input()`, a caller calls `send_if_input_changed`, the receive
loop runs one iteration on a message from the bus. -/
inductive Op where
  | input_append (frame : CanFrame) : Op
  | send_if_input_changed : Op
  | loop_iteration (msg : BusMessage) : Op

/-- The frames of an operation are frames of the data model: their payload
length is at most 8. -/
def Op.well_formed : Op → Prop
  | .input_append frame => frame.dlc ≤ 8
  | .send_if_input_changed => True
  | .loop_iteration msg => msg.can_frame.can_dlc ≤ 8

instance (op : Op) : Decidable op.well_formed := by
  cases op <;> unfold Op.well_formed <;> infer_instance

/-- One operation on the driver. -/
def XenomaiCanbus.step (s : XenomaiCanbus) : Op → Except Fault XenomaiCanbus
  | .input_append frame => .ok { s with input_ := s.input_.append frame }
  | .send_if_input_changed => s.send_if_input_changed
  | .loop_iteration msg => s.loop_iteration msg

/-- A sequence of operations on the driver, one after the other. -/
def XenomaiCanbus.run (s : XenomaiCanbus) : List Op → Except Fault XenomaiCanbus
  | [] => .ok s
  | op :: ops =>
    match s.step op with
    | .error e => .error e
    | .ok s1 => XenomaiCanbus.run s1 ops

/-- A run of appends to the send channel, with no other call in between. -/
def XenomaiCanbus.input_append_all (s : XenomaiCanbus) (frames : List CanFrame) :
    XenomaiCanbus :=
  { s with input_ := frames.foldl ThreadsafeTimeseries.append s.input_ }

/-- The time indices of the transmitted elements, in the order of
transmission. -/
def XenomaiCanbus.sent_timeindices (s : XenomaiCanbus) : List Int :=
  s.sent.map Transmission.timeindex

/-- The invariant of a constructed driver: the connection is stored, the send
channel has room for an element and retains one as soon as one was appended,
the watermark is a time index between zero and the next time index of the send
channel, and every transmitted element has a time index below the watermark,
later transmissions having greater time indices. -/
structure XenomaiCanbus.Inv (s : XenomaiCanbus) : Prop where
  connected : ∃ connection, s.connection_info_ = some connection
  capacity : 1 ≤ s.input_.capacity
  retained : 0 < s.input_.appended → s.input_.elements ≠ []
  nonneg : 0 ≤ s.input_hash_
  watermark : s.input_hash_ ≤ s.input_.next_timeindex
  sent_below : ∀ t ∈ s.sent, t.timeindex < s.input_hash_
  sent_increasing : s.sent_timeindices.Pairwise (· < ·)

/-- Every frame retained in the send channel is a frame of the data model. -/
def XenomaiCanbus.input_well_formed (s : XenomaiCanbus) : Prop :=
  ∀ frame ∈ s.input_.elements, frame.dlc ≤ 8

/-! ## Concrete inputs -/

/-- Device results with which every step of `setup_can` succeeds: socket 3 on
interface index 1. -/
def dev_ok : RtDev :=
  { rt_dev_socket := 3, rt_dev_ioctl_ifindex := 0, ifr_ifindex := 1, rt_dev_setsockopt := 0,
    rt_dev_bind := 0, rt_dev_ioctl_take_timestamp := 0, xeno := false }

/-- Device results where the creation of the socket fails. -/
def dev_no_socket : RtDev :=
  { rt_dev_socket := -1, rt_dev_ioctl_ifindex := 0, ifr_ifindex := 1, rt_dev_setsockopt := 0,
    rt_dev_bind := 0, rt_dev_ioctl_take_timestamp := 0, xeno := false }

/-- Device results where only the setting of the error mask would fail. -/
def dev_no_error_mask : RtDev :=
  { rt_dev_socket := 3, rt_dev_ioctl_ifindex := 0, ifr_ifindex := 1, rt_dev_setsockopt := -1,
    rt_dev_bind := 0, rt_dev_ioctl_take_timestamp := 0, xeno := false }

/-- One of the steps that the constructor runs to acquire the connection
fails: the creation of the socket, the lookup of the interface index, the bind
or, compiled with `__XENO__`, the enabling of timestamps. -/
def RtDev.acquisition_fails (dev : RtDev) : Prop :=
  dev.rt_dev_socket < 0 ∨ dev.rt_dev_ioctl_ifindex < 0 ∨ dev.rt_dev_bind < 0 ∨
    (dev.xeno = true ∧ dev.rt_dev_ioctl_take_timestamp ≠ 0)

instance (dev : RtDev) : Decidable dev.acquisition_fails := by
  unfold RtDev.acquisition_fails; infer_instance

/-- The attributes of a driver before the connection is stored and the receive
loop is started. -/
def driver_unconnected : XenomaiCanbus :=
  { connection_info_ := none
    input_ := ThreadsafeTimeseries.create 1000
    input_hash_ := 0
    output_ := ThreadsafeTimeseries.create 1000
    sent := []
    loop_started := false }

/-- The driver the constructor returns on `dev_ok`. -/
def driver_ok : XenomaiCanbus :=
  { driver_unconnected with
    connection_info_ := some { send_addr := { can_family := AF_CAN, can_ifindex := 1 }, socket := 3 }
    loop_started := true }

/-- A frame with the given identifier and two payload bytes, 17 and 34. -/
def frame_two_bytes (id : Nat) : CanFrame :=
  { data := fun j => if j.val = 0 then some 17 else if j.val = 1 then some 34 else none
    dlc := 2
    id := id }

/-- A message from the bus without a timestamp, with a frame of two payload
bytes, 17 and 34. -/
def message_two_bytes : BusMessage :=
  { can_frame :=
      { can_id := 5, can_dlc := 2
        data := fun j => if j.val = 0 then some 17 else if j.val = 1 then some 34 else some 0 }
    msg_controllen := 0
    timestamp := 0 }

/-! ## Properties of the motor command layer -/

/-- On every request that is not NaN and every limit above zero the clamped
value lies in the closed interval from minus the limit to the limit. -/
theorem safe_current_target_in_interval (x L : Double) (hx : x ≠ Double.nan)
    (hL : Double.lt Double.zero L = true) :
    in_closed_interval (Double.neg L) L (safe_current_target x L) := by
  cases x <;> cases L <;>
    simp_all [in_closed_interval, safe_current_target, std_max, std_min, Double.lt, Double.le,
      Double.neg, Double.zero]
  all_goals
    first
    | linarith
    | (split_ifs <;> simp_all [Double.le] <;> linarith)

/-- On every request that is not NaN and every limit above zero the clamped
value is the one the specification's formula gives. -/
theorem safe_current_target_eq_spec_clamp (x L : Double) (hx : x ≠ Double.nan)
    (hL : Double.lt Double.zero L = true) :
    safe_current_target x L = spec_clamp L x := by
  cases x <;> cases L <;>
    simp_all [spec_clamp, safe_current_target, std_max, std_min, Double.lt, Double.neg,
      Double.zero]
  all_goals
    first
    | linarith
    | (intros; linarith)
    | (split_ifs <;> simp_all <;> linarith)

/-- A request inside the closed interval of the limit is its own clamped
value. -/
theorem safe_current_target_unchanged (x L : Double)
    (hx : in_closed_interval (Double.neg L) L x) : safe_current_target x L = x := by
  cases x <;> cases L <;>
    simp_all [in_closed_interval, safe_current_target, std_max, std_min, Double.lt, Double.le,
      Double.neg]
  all_goals
    first
    | linarith
    | (split_ifs <;> simp_all <;> linarith)

/-- One call of `SafeMotor::set_current_target` is one more `set_control` call
on the board, with the clamped value, on the control channel of the slot. -/
theorem SafeMotor_set_current_target_calls (m : SafeMotor) (x : Double) :
    (m.set_current_target x).board_.calls =
      m.board_.calls ++ [(safe_current_target x m.max_current_target_,
        if m.motor_id_ = false then Control.current_target_0 else Control.current_target_1)] := by
  cases hm : m.motor_id_ <;>
    simp [SafeMotor.set_current_target, Motor.set_current_target,
      MotorBoardInterface.set_control, hm]

/-- As long as nothing has been evicted and the capacity is not exceeded, a
run of appends extends the retained elements by the appended values. -/
theorem ThreadsafeTimeseries.foldl_append_elements {T : Type} (xs : List T) :
    ∀ c : ThreadsafeTimeseries T, c.elements.length + xs.length ≤ c.capacity →
      (xs.foldl ThreadsafeTimeseries.append c).elements = c.elements ++ xs ∧
      (xs.foldl ThreadsafeTimeseries.append c).appended = c.appended + xs.length ∧
      (xs.foldl ThreadsafeTimeseries.append c).capacity = c.capacity := by
  induction xs with
  | nil => intro c _; simp
  | cons x xs ih =>
    intro c h
    simp only [List.length_cons] at h
    have hdrop : (c.elements ++ [x]).length - c.capacity = 0 := by
      simp only [List.length_append, List.length_singleton]; omega
    have hx : (c.append x).elements = c.elements ++ [x] := by
      simp only [ThreadsafeTimeseries.append, hdrop, List.drop_zero]
    have h2 : (c.append x).elements.length + xs.length ≤ (c.append x).capacity := by
      rw [hx]
      simp only [List.length_append, List.length_singleton, ThreadsafeTimeseries.append]
      omega
    obtain ⟨h3, h4, h5⟩ := ih (c.append x) h2
    refine ⟨?_, ?_, ?_⟩
    · simp only [List.foldl_cons, h3, hx, List.append_assoc, List.singleton_append]
    · rw [List.foldl_cons, h4]
      simp only [ThreadsafeTimeseries.append, List.length_cons]; omega
    · rw [List.foldl_cons, h5]
      rfl

/-- The history channel of a `SafeMotor` after a run of requests is the
initial channel after the same run of appends. -/
theorem SafeMotor.requests_history (xs : List Double) :
    ∀ m : SafeMotor, (m.requests xs).current_target_ =
      xs.foldl ThreadsafeTimeseries.append m.current_target_ := by
  induction xs with
  | nil => intro m; rfl
  | cons x xs ih =>
    intro m
    have := ih (m.set_current_target x)
    simpa [SafeMotor.requests, SafeMotor.set_current_target] using this

/-- Claim C1, at the request NaN: with the limit 2.0, which is above zero, a
freshly constructed `SafeMotor` asked for NaN makes one `set_control` call, and
the value of that call is NaN, which is not in the closed interval from -2.0
to 2.0. -/
theorem SafeMotor_nan_request_reaches_board :
    Double.lt Double.zero (Double.fin 2) = true ∧
    ((SafeMotor.create ⟨[]⟩ false (Double.fin 2) 1).set_current_target Double.nan).board_.calls
      = [(Double.nan, Control.current_target_0)] ∧
    ¬ in_closed_interval (Double.neg (Double.fin 2)) (Double.fin 2) Double.nan := by
  decide

/-- Claim C2, at the request NaN: with the limit 2.0 the board is written once
with NaN, while the specification's formula `max(-L, min(L, x))` gives 2.0 on
the same request. -/
theorem SafeMotor_nan_request_differs_from_spec_clamp :
    Double.lt Double.zero (Double.fin 2) = true ∧
    ((SafeMotor.create ⟨[]⟩ false (Double.fin 2) 1).set_current_target Double.nan).board_.values
      = [Double.nan] ∧
    spec_clamp (Double.fin 2) Double.nan = Double.fin 2 ∧
    Double.nan ≠ spec_clamp (Double.fin 2) Double.nan := by
  decide

/-- The scenario of the specification: limit 2.0, requests 0.5, 5.0 and -7.0;
the board receives 0.5, 2.0 and -2.0. -/
theorem SafeMotor_scenario_board_values :
    ((SafeMotor.create ⟨[]⟩ false (Double.fin 2) 10).requests
      [Double.fin (1/2), Double.fin 5, Double.fin (-7)]).board_.values
    = [Double.fin (1/2), Double.fin 2, Double.fin (-2)] := by
  simp [SafeMotor.requests, SafeMotor.set_current_target, SafeMotor.create, Motor.create,
    Motor.set_current_target, MotorBoardInterface.set_control, MotorBoardInterface.values,
    safe_current_target, std_max, std_min, Double.lt, Double.neg]
  norm_num

/-- Claim C3: on a freshly constructed `SafeMotor` whose history depth is at
least the number of requests, the history channel after the requests holds
exactly the requested values, unmodified and in call order, at the time indices
0 to n-1, whatever the limit is; and in every state one call appends exactly
the requested value to the history channel, one element per call. -/
theorem SafeMotor_history_holds_requests (board : MotorBoardInterface) (motor_id : Bool)
    (L : Double) (depth : Nat) (xs : List Double) (h : xs.length ≤ depth) :
    ((SafeMotor.create board motor_id L depth).requests xs).current_target_.elements = xs ∧
    ((SafeMotor.create board motor_id L depth).requests xs).current_target_.appended
      = xs.length ∧
    (∀ (i : Nat) (hi : i < xs.length),
      ((SafeMotor.create board motor_id L depth).requests xs).current_target_.at_index i
        = Except.ok (xs.get ⟨i, hi⟩)) ∧
    (∀ (m : SafeMotor) (x : Double),
      (m.set_current_target x).current_target_ = m.current_target_.append x ∧
      (m.set_current_target x).current_target_.appended = m.current_target_.appended + 1) := by
  have hc : (SafeMotor.create board motor_id L depth).current_target_
      = ThreadsafeTimeseries.create depth := rfl
  have hf := ThreadsafeTimeseries.foldl_append_elements xs
    (ThreadsafeTimeseries.create depth : ThreadsafeTimeseries Double)
    (by simpa [ThreadsafeTimeseries.create] using h)
  rw [← hc, ← SafeMotor.requests_history] at hf
  obtain ⟨h1, h2, _⟩ := hf
  have h1' : ((SafeMotor.create board motor_id L depth).requests xs).current_target_.elements
      = xs := by simpa [SafeMotor.create, ThreadsafeTimeseries.create] using h1
  have h2' : ((SafeMotor.create board motor_id L depth).requests xs).current_target_.appended
      = xs.length := by simpa [SafeMotor.create, ThreadsafeTimeseries.create] using h2
  refine ⟨h1', h2', ?_, ?_⟩
  · intro i hi
    have hget : xs.get? i = some (xs.get ⟨i, hi⟩) := List.get?_eq_get hi
    simp only [ThreadsafeTimeseries.at_index, ThreadsafeTimeseries.oldest_index, h1', h2',
      Nat.sub_self, Nat.sub_zero, Nat.not_lt_zero, if_false, Nat.not_le.mpr hi, hget]
  · intro m x
    exact ⟨rfl, rfl⟩

/-- Witness for claim C3: depth 3, limit 2.0 and the three requests 0.5, 5.0
and -7.0. -/
theorem SafeMotor_history_holds_requests_witness :
    ((SafeMotor.create ⟨[]⟩ false (Double.fin 2) 3).requests
      [Double.fin (1/2), Double.fin 5, Double.fin (-7)]).current_target_.elements
      = [Double.fin (1/2), Double.fin 5, Double.fin (-7)] :=
  (SafeMotor_history_holds_requests ⟨[]⟩ false (Double.fin 2) 3
    [Double.fin (1/2), Double.fin 5, Double.fin (-7)] (by decide)).1

/-- Claim C7: `Motor::set_current_target(v)` makes exactly one `set_control`
call, with the value `v` unchanged, on `current_target_0` when the slot
identifier is 0 and on `current_target_1` otherwise; and
`SafeMotor::set_current_target` makes its one call on the same control channel
as a `Motor` of the same slot identifier. -/
theorem Motor_set_current_target_forwards (m : Motor) (v : Double) :
    (m.set_current_target v).board_.calls =
      m.board_.calls ++ [(v, if m.motor_id_ = false then Control.current_target_0
        else Control.current_target_1)] ∧
    (m.set_current_target v).motor_id_ = m.motor_id_ ∧
    (∀ (s : SafeMotor) (x : Double), s.motor_id_ = m.motor_id_ →
      ∃ w : Double,
        (s.set_current_target x).board_.calls = s.board_.calls ++
          [(w, if m.motor_id_ = false then Control.current_target_0
            else Control.current_target_1)]) := by
  refine ⟨?_, ?_, ?_⟩
  · cases hm : m.motor_id_ <;>
      simp [Motor.set_current_target, MotorBoardInterface.set_control, hm]
  · cases hm : m.motor_id_ <;> simp [Motor.set_current_target, hm]
  · intro s x hs
    refine ⟨safe_current_target x s.max_current_target_, ?_⟩
    rw [SafeMotor_set_current_target_calls, hs]

/-- Witness for claim C7: a `Motor` and a `SafeMotor` on slot 1. -/
theorem Motor_set_current_target_forwards_witness :
    ∃ w : Double,
      ((SafeMotor.create ⟨[]⟩ true (Double.fin 2) 1).set_current_target (Double.fin 5)).board_.calls
        = [] ++ [(w, Control.current_target_1)] :=
  (Motor_set_current_target_forwards (Motor.create ⟨[]⟩ true) (Double.fin 5)).2.2
    (SafeMotor.create ⟨[]⟩ true (Double.fin 2) 1) (Double.fin 5) rfl

/-- Claim C10 as stated fails at the request NaN: with the negative limit -2.0
the board is written with NaN and not with 2.0, the limit negated. -/
theorem SafeMotor_negative_limit_nan_request :
    Double.lt (Double.fin (-2)) Double.zero = true ∧
    ((SafeMotor.create ⟨[]⟩ false (Double.fin (-2)) 1).set_current_target
      Double.nan).board_.values = [Double.nan] ∧
    Double.nan ≠ Double.neg (Double.fin (-2)) := by
  decide

/-- Claim C10, amended: with a limit below zero, every request that is not NaN
makes `SafeMotor::set_current_target` write the limit negated to the board, a
value above zero that does not depend on the request. -/
theorem SafeMotor_negative_limit_forwards_constant (m : SafeMotor) (x : Double)
    (hL : Double.lt m.max_current_target_ Double.zero = true) (hx : x ≠ Double.nan) :
    (m.set_current_target x).board_.values
      = m.board_.values ++ [Double.neg m.max_current_target_] ∧
    Double.lt Double.zero (Double.neg m.max_current_target_) = true := by
  have key : safe_current_target x m.max_current_target_ = Double.neg m.max_current_target_ ∧
      Double.lt Double.zero (Double.neg m.max_current_target_) = true := by
    generalize m.max_current_target_ = L at hL
    cases x <;> cases L <;>
      simp_all [safe_current_target, std_max, std_min, Double.lt, Double.neg, Double.zero]
    rename_i a b
    by_cases h : b < a
    · simp only [h, if_true, Double.lt, decide_eq_false_iff_not, not_lt, Double.fin.injEq]
      intro h2
      linarith
    · simp only [h, if_false, Double.lt, decide_eq_false_iff_not, not_lt, Double.fin.injEq]
      intro h2
      linarith
  refine ⟨?_, key.2⟩
  rw [MotorBoardInterface.values, SafeMotor_set_current_target_calls, key.1]
  simp [MotorBoardInterface.values]

/-- Witness for claim C10, amended: limit -2.0 and the request 5.0. -/
theorem SafeMotor_negative_limit_forwards_constant_witness :
    ((SafeMotor.create ⟨[]⟩ false (Double.fin (-2)) 1).set_current_target
      (Double.fin 5)).board_.values
      = (SafeMotor.create ⟨[]⟩ false (Double.fin (-2)) 1).board_.values
        ++ [Double.neg (Double.fin (-2))] ∧
    Double.lt Double.zero (Double.neg (Double.fin (-2))) = true :=
  SafeMotor_negative_limit_forwards_constant
    (SafeMotor.create ⟨[]⟩ false (Double.fin (-2)) 1) (Double.fin 5) (by decide) (by decide)

/-! ## Properties of the CAN driver -/

/-- In a channel with room for an element, the element just appended is the
current one. -/
theorem ThreadsafeTimeseries.current_element_append {T : Type} (c : ThreadsafeTimeseries T)
    (v : T) (h : 1 ≤ c.capacity) : (c.append v).current_element = some v := by
  simp only [ThreadsafeTimeseries.current_element, ThreadsafeTimeseries.append,
    List.getLast?_drop, List.length_append, List.length_singleton, List.getLast?_concat]
  rw [if_neg]
  omega

/-- An append moves the next time index up by one and keeps the capacity. -/
theorem ThreadsafeTimeseries.next_timeindex_append {T : Type} (c : ThreadsafeTimeseries T)
    (v : T) : (c.append v).next_timeindex = c.next_timeindex + 1 ∧
      (c.append v).capacity = c.capacity ∧ (c.append v).appended = c.appended + 1 := by
  simp [ThreadsafeTimeseries.next_timeindex, ThreadsafeTimeseries.newest_index,
    ThreadsafeTimeseries.append]

/-- A run of appends moves the next time index up by the number of appends and
keeps the capacity. -/
theorem ThreadsafeTimeseries.next_timeindex_foldl_append {T : Type} (vs : List T) :
    ∀ c : ThreadsafeTimeseries T,
      (vs.foldl ThreadsafeTimeseries.append c).next_timeindex = c.next_timeindex + vs.length ∧
      (vs.foldl ThreadsafeTimeseries.append c).capacity = c.capacity := by
  induction vs with
  | nil => intro c; simp
  | cons v vs ih =>
    intro c
    obtain ⟨h1, h2⟩ := ih (c.append v)
    obtain ⟨h3, h4, _⟩ := ThreadsafeTimeseries.next_timeindex_append c v
    refine ⟨?_, ?_⟩
    · rw [List.foldl_cons, h1, h3, List.length_cons]; push_cast; ring
    · rw [List.foldl_cons, h2, h4]

/-- The next time index of a channel is the number of appends so far. -/
theorem ThreadsafeTimeseries.next_timeindex_eq {T : Type} (c : ThreadsafeTimeseries T) :
    c.next_timeindex = (c.appended : Int) := by
  simp [ThreadsafeTimeseries.next_timeindex, ThreadsafeTimeseries.newest_index]

/-- The copy loop of `receive_frame`, started at index `i` with `k` iterations
to go that stay inside the buffer, completes; it accesses the indices `i` to
`i + k - 1` in order, copies those bytes and leaves the other bytes alone. -/
theorem receive_frame_loop_spec (src : Bytes8) (k : Nat) :
    ∀ (i : Nat) (st : CopyState), i + k ≤ 8 →
      ∃ st1, receive_frame_loop src k i st = .ok st1 ∧
        st1.accessed = st.accessed ++ List.range' i k ∧
        (∀ j : Fin 8, i ≤ j.val → j.val < i + k → st1.data j = src j) ∧
        (∀ j : Fin 8, (j.val < i ∨ i + k ≤ j.val) → st1.data j = st.data j) := by
  induction k with
  | zero =>
    intro i st _
    exact ⟨st, rfl, by simp, fun j h1 h2 => by omega, fun _ _ => rfl⟩
  | succ k ih =>
    intro i st h
    have hi : i < 8 := by omega
    obtain ⟨st1, h1, h2, h3, h4⟩ := ih (i + 1)
      { data := Function.update st.data ⟨i, hi⟩ (src ⟨i, hi⟩), accessed := st.accessed ++ [i] }
      (by omega)
    refine ⟨st1, ?_, ?_, ?_, ?_⟩
    · simp only [receive_frame_loop, Bytes8.read, Bytes8.write, hi, dif_pos, h1]
    · rw [h2, List.range'_succ, List.append_assoc, List.singleton_append]
    · intro j hj1 hj2
      by_cases hj : j.val = i
      · have hji : j = ⟨i, hi⟩ := Fin.ext hj
        rw [h4 j (Or.inl (by omega)), hji]
        simp
      · exact h3 j (by omega) (by omega)
    · intro j hj
      have hne : j ≠ ⟨i, hi⟩ := by
        intro hji
        have : j.val = i := by rw [hji]
        omega
      rw [h4 j (by omega)]
      simp [Function.update, hne]

/-- A frame of the data model is handed to the bus with its identifier, its
length and its first `dlc` payload bytes. -/
theorem send_frame_ok (frame : CanFrame) (h : frame.dlc ≤ 8) :
    send_frame frame = .ok
      { can_id := frame.id, can_dlc := frame.dlc,
        data := fun j => if j.val < frame.dlc then frame.data j else Bytes8.indeterminate j } := by
  simp [send_frame, memcpy, h]

/-- A driver that the constructor returns satisfies the invariant, and its send
channel is empty. -/
theorem XenomaiCanbus.create_inv (dev : RtDev) (name : String) (s : XenomaiCanbus)
    (h : XenomaiCanbus.create dev name = .constructed s) : s.Inv ∧ s.input_well_formed := by
  unfold XenomaiCanbus.create at h
  split at h
  · cases h
  · rename_i can_connection _
    injection h with h
    subst h
    refine ⟨⟨⟨can_connection, rfl⟩, ?_, ?_, ?_, ?_, ?_, ?_⟩, ?_⟩
    · simp [ThreadsafeTimeseries.create]
    · simp [ThreadsafeTimeseries.create]
    · simp [ThreadsafeTimeseries.create, ThreadsafeTimeseries.next_timeindex,
        ThreadsafeTimeseries.newest_index]
    · simp
    · simp
    · simp [XenomaiCanbus.sent_timeindices]
    · intro frame hf
      simp [ThreadsafeTimeseries.create] at hf

/-- In a state that satisfies the invariant and whose send channel holds frames
of the data model, `send_if_input_changed` returns. -/
theorem XenomaiCanbus.send_if_input_changed_total (s : XenomaiCanbus) (hi : s.Inv)
    (hw : s.input_well_formed) : ∃ s1, s.send_if_input_changed = .ok s1 := by
  unfold XenomaiCanbus.send_if_input_changed
  by_cases hne : s.input_.next_timeindex ≠ s.input_hash_
  · have hlt : 0 < s.input_.appended := by
      have h1 := hi.watermark
      have h2 := hi.nonneg
      rw [ThreadsafeTimeseries.next_timeindex_eq] at h1 hne
      omega
    have hret := hi.retained hlt
    obtain ⟨connection, hc⟩ := hi.connected
    cases hcur : s.input_.current_element with
    | none =>
      simp only [ThreadsafeTimeseries.current_element, List.getLast?_eq_none_iff] at hcur
      exact absurd hcur hret
    | some element =>
      have hmem : element ∈ s.input_.elements :=
        List.mem_of_getLast?_eq_some hcur
      have hsf := send_frame_ok element (hw element hmem)
      simp only [hne, if_true, hc, hsf, ne_eq, not_false_eq_true]
      exact ⟨_, rfl⟩
  · simp only [hne, if_false]
    exact ⟨s, rfl⟩

/-- A call of `send_if_input_changed` that returns keeps the invariant, does
not lower the watermark, leaves the send channel alone and leaves the watermark
at the next time index of the send channel. -/
theorem XenomaiCanbus.send_if_input_changed_inv (s s1 : XenomaiCanbus) (hi : s.Inv)
    (h : s.send_if_input_changed = .ok s1) :
    s1.Inv ∧ s.input_hash_ ≤ s1.input_hash_ ∧ s1.input_ = s.input_ := by
  unfold XenomaiCanbus.send_if_input_changed at h
  by_cases hne : s.input_.next_timeindex ≠ s.input_hash_
  · simp only [hne, if_true, ne_eq, not_false_eq_true] at h
    split at h
    · cases h
    · split at h
      · cases h
      · split at h
        · cases h
        · injection h with h
          subst h
          have h1 := hi.watermark
          have h2 := hi.nonneg
          have hidx : s.input_.newest_index = s.input_.next_timeindex - 1 := by
            simp [ThreadsafeTimeseries.next_timeindex]
          refine ⟨⟨?_, hi.capacity, hi.retained, ?_, ?_, ?_, ?_⟩, ?_, rfl⟩
          · exact hi.connected
          · show 0 ≤ s.input_.next_timeindex
            omega
          · exact le_refl _
          · intro t ht
            simp only [List.mem_append, List.mem_singleton] at ht
            show t.timeindex < s.input_.next_timeindex
            rcases ht with ht | ht
            · have := hi.sent_below t ht
              omega
            · subst ht
              show s.input_.newest_index < s.input_.next_timeindex
              omega
          · simp only [XenomaiCanbus.sent_timeindices, List.map_append, List.map_cons,
              List.map_nil, List.pairwise_append, List.pairwise_cons, List.Pairwise.nil,
              List.mem_singleton, List.mem_map]
            refine ⟨hi.sent_increasing, ⟨by simp, trivial⟩, ?_⟩
            rintro a ⟨t, ht, rfl⟩ b rfl
            have := hi.sent_below t ht
            omega
          · show s.input_hash_ ≤ s.input_.next_timeindex
            exact h1
  · simp only [hne, if_false] at h
    injection h with h
    subst h
    exact ⟨hi, le_refl _, rfl⟩

/-- On a connected driver and a message whose frame has a payload length of at
most 8, `receive_frame` returns the frame with the identifier, the length and
the first `can_dlc` payload bytes of the message, having accessed the indices
0 to `can_dlc - 1`. -/
theorem XenomaiCanbus.receive_frame_ok (s : XenomaiCanbus) (connection : CanConnection)
    (hc : s.connection_info_ = some connection) (msg : BusMessage)
    (hn : msg.can_frame.can_dlc ≤ 8) :
    ∃ data : Bytes8,
      s.receive_frame msg = .ok
        ({ data := data, dlc := msg.can_frame.can_dlc, id := msg.can_frame.can_id },
          List.range msg.can_frame.can_dlc) ∧
      (∀ j : Fin 8, j.val < msg.can_frame.can_dlc → data j = msg.can_frame.data j) ∧
      (∀ j : Fin 8, msg.can_frame.can_dlc ≤ j.val → data j = none) := by
  obtain ⟨st1, h1, h2, h3, h4⟩ := receive_frame_loop_spec msg.can_frame.data
    msg.can_frame.can_dlc 0 { data := Bytes8.indeterminate, accessed := [] } (by omega)
  refine ⟨st1.data, ?_, ?_, ?_⟩
  · simp only [XenomaiCanbus.receive_frame, hc, h1, h2, List.nil_append, List.range_eq_range']
  · intro j hj
    exact h3 j (Nat.zero_le _) (by omega)
  · intro j hj
    rw [h4 j (Or.inr (by omega))]
    rfl

/-- One iteration of the receive loop keeps everything but the receive
channel. -/
theorem XenomaiCanbus.loop_iteration_frame (s s1 : XenomaiCanbus) (msg : BusMessage)
    (h : s.loop_iteration msg = .ok s1) :
    s1.connection_info_ = s.connection_info_ ∧ s1.input_ = s.input_ ∧
      s1.input_hash_ = s.input_hash_ ∧ s1.sent = s.sent := by
  unfold XenomaiCanbus.loop_iteration at h
  split at h
  · cases h
  · injection h with h
    subst h
    exact ⟨rfl, rfl, rfl, rfl⟩

/-- One operation that returns keeps the invariant, does not lower the
watermark and keeps the transmissions made so far. -/
theorem XenomaiCanbus.step_inv (s s1 : XenomaiCanbus) (op : Op) (hi : s.Inv)
    (h : s.step op = .ok s1) :
    s1.Inv ∧ s.input_hash_ ≤ s1.input_hash_ := by
  cases op with
  | input_append frame =>
    simp only [XenomaiCanbus.step] at h
    injection h with h
    subst h
    obtain ⟨h3, h4, h5⟩ := ThreadsafeTimeseries.next_timeindex_append s.input_ frame
    refine ⟨⟨hi.connected, ?_, ?_, hi.nonneg, ?_, hi.sent_below, hi.sent_increasing⟩, le_refl _⟩
    · show 1 ≤ (s.input_.append frame).capacity
      rw [h4]; exact hi.capacity
    · intro _
      have hcur := ThreadsafeTimeseries.current_element_append s.input_ frame hi.capacity
      intro hnil
      simp only [ThreadsafeTimeseries.current_element] at hcur
      rw [show (s.input_.append frame).elements = [] from hnil] at hcur
      simp at hcur
    · show s.input_hash_ ≤ (s.input_.append frame).next_timeindex
      have := hi.watermark
      omega
  | send_if_input_changed =>
    obtain ⟨h1, h2, _⟩ := XenomaiCanbus.send_if_input_changed_inv s s1 hi h
    exact ⟨h1, h2⟩
  | loop_iteration msg =>
    obtain ⟨h1, h2, h3, h4⟩ := XenomaiCanbus.loop_iteration_frame s s1 msg h
    refine ⟨⟨?_, ?_, ?_, ?_, ?_, ?_, ?_⟩, le_of_eq h3.symm⟩
    · rw [h1]; exact hi.connected
    · rw [h2]; exact hi.capacity
    · rw [h2]; exact hi.retained
    · rw [h3]; exact hi.nonneg
    · rw [h2, h3]; exact hi.watermark
    · rw [h3, h4]; exact hi.sent_below
    · simp only [XenomaiCanbus.sent_timeindices, h4]; exact hi.sent_increasing

/-- One operation on frames of the data model keeps the send channel holding
frames of the data model. -/
theorem XenomaiCanbus.step_well_formed (s s1 : XenomaiCanbus) (op : Op) (hi : s.Inv)
    (hw : s.input_well_formed) (hop : op.well_formed) (h : s.step op = .ok s1) :
    s1.input_well_formed := by
  cases op with
  | input_append frame =>
    simp only [XenomaiCanbus.step] at h
    injection h with h
    subst h
    intro f hf
    have hf2 : f ∈ s.input_.elements ++ [frame] := List.mem_of_mem_drop hf
    simp only [List.mem_append, List.mem_singleton] at hf2
    rcases hf2 with hf2 | hf2
    · exact hw f hf2
    · subst hf2; exact hop
  | send_if_input_changed =>
    obtain ⟨_, _, h3⟩ := XenomaiCanbus.send_if_input_changed_inv s s1 hi h
    simp only [XenomaiCanbus.input_well_formed, h3]
    exact hw
  | loop_iteration msg =>
    obtain ⟨_, h2, _, _⟩ := XenomaiCanbus.loop_iteration_frame s s1 msg h
    simp only [XenomaiCanbus.input_well_formed, h2]
    exact hw

/-- In a state that satisfies the invariant, every operation on frames of the
data model returns. -/
theorem XenomaiCanbus.step_total (s : XenomaiCanbus) (op : Op) (hi : s.Inv)
    (hw : s.input_well_formed) (hop : op.well_formed) : ∃ s1, s.step op = .ok s1 := by
  cases op with
  | input_append frame => exact ⟨_, rfl⟩
  | send_if_input_changed => exact XenomaiCanbus.send_if_input_changed_total s hi hw
  | loop_iteration msg =>
    obtain ⟨connection, hc⟩ := hi.connected
    obtain ⟨data, h1, _, _⟩ := XenomaiCanbus.receive_frame_ok s connection hc msg hop
    simp only [XenomaiCanbus.step, XenomaiCanbus.loop_iteration, h1]
    exact ⟨_, rfl⟩

/-- A run over two sequences of operations is the run over the first followed
by the run over the second. -/
theorem XenomaiCanbus.run_append (ops1 ops2 : List Op) :
    ∀ s : XenomaiCanbus, s.run (ops1 ++ ops2) =
      match s.run ops1 with
      | .error e => .error e
      | .ok s1 => s1.run ops2 := by
  induction ops1 with
  | nil => intro s; rfl
  | cons op ops1 ih =>
    intro s
    simp only [List.cons_append, XenomaiCanbus.run]
    cases hstep : s.step op with
    | error e => rfl
    | ok s1 => exact ih s1

/-- A run that returns keeps the invariant and does not lower the watermark. -/
theorem XenomaiCanbus.run_inv (ops : List Op) :
    ∀ s s1 : XenomaiCanbus, s.Inv → s.run ops = .ok s1 →
      s1.Inv ∧ s.input_hash_ ≤ s1.input_hash_ := by
  induction ops with
  | nil =>
    intro s s1 hi h
    simp only [XenomaiCanbus.run] at h
    injection h with h
    subst h
    exact ⟨hi, le_refl _⟩
  | cons op ops ih =>
    intro s s1 hi h
    simp only [XenomaiCanbus.run] at h
    cases hstep : s.step op with
    | error e => rw [hstep] at h; cases h
    | ok s2 =>
      rw [hstep] at h
      obtain ⟨h1, h2⟩ := XenomaiCanbus.step_inv s s2 op hi hstep
      obtain ⟨h3, h4⟩ := ih s2 s1 h1 h
      exact ⟨h3, le_trans h2 h4⟩

/-- A run over operations on frames of the data model, from a state that
satisfies the invariant, returns, in a state whose send channel holds frames of
the data model. -/
theorem XenomaiCanbus.run_total (ops : List Op) :
    ∀ s : XenomaiCanbus, s.Inv → s.input_well_formed → (∀ op ∈ ops, op.well_formed) →
      ∃ s1, s.run ops = .ok s1 ∧ s1.input_well_formed := by
  induction ops with
  | nil => intro s _ hw _; exact ⟨s, rfl, hw⟩
  | cons op ops ih =>
    intro s hi hw hops
    have hop : op.well_formed := hops op (List.mem_cons_self _ _)
    obtain ⟨s2, hstep⟩ := XenomaiCanbus.step_total s op hi hw hop
    obtain ⟨h1, _⟩ := XenomaiCanbus.step_inv s s2 op hi hstep
    have h2 := XenomaiCanbus.step_well_formed s s2 op hi hw hop hstep
    obtain ⟨s1, h3, h4⟩ := ih s2 h1 h2 (fun o ho => hops o (List.mem_cons_of_mem _ ho))
    exact ⟨s1, by simp only [XenomaiCanbus.run, hstep, h3], h4⟩

/-- A run of `input_append` operations is the run of appends to the send
channel. -/
theorem XenomaiCanbus.run_input_appends (frames : List CanFrame) :
    ∀ s : XenomaiCanbus, s.run (frames.map Op.input_append) = .ok (s.input_append_all frames) := by
  induction frames with
  | nil => intro s; rfl
  | cons f fs ih =>
    intro s
    simp only [List.map_cons, XenomaiCanbus.run, XenomaiCanbus.step]
    rw [ih]
    rfl

/-- The constructor on `dev_ok` returns `driver_ok`. -/
theorem XenomaiCanbus.create_dev_ok :
    XenomaiCanbus.create dev_ok "rtcan0" = .constructed driver_ok := by
  rfl

/-- Claim C4 (latest wins): in every state a freshly constructed driver
reaches, after a non-empty run of appends to the send channel whose last frame
is a frame of the data model, one call of `send_if_input_changed` returns and
hands exactly one frame to the bus, built from the last frame appended, with
its identifier, length and payload bytes; nothing else is transmitted; and the
watermark afterwards is the next time index of the send channel. -/
theorem send_if_input_changed_latest_wins (dev : RtDev) (name : String)
    (s0 s : XenomaiCanbus) (ops : List Op)
    (h0 : XenomaiCanbus.create dev name = .constructed s0) (hrun : s0.run ops = .ok s)
    (vs : List CanFrame) (v : CanFrame) (hv : v.dlc ≤ 8) :
    ∃ (s1 : XenomaiCanbus) (connection : CanConnection) (can_frame : can_frame_t),
      s.connection_info_ = some connection ∧
      send_frame v = .ok can_frame ∧
      can_frame.can_id = v.id ∧ can_frame.can_dlc = v.dlc ∧
      (∀ j : Fin 8, j.val < v.dlc → can_frame.data j = v.data j) ∧
      (s.input_append_all (vs ++ [v])).send_if_input_changed = .ok s1 ∧
      s1.sent = s.sent ++
        [{ socket := connection.socket, can_frame := can_frame,
           address := connection.send_addr,
           timeindex := (s.input_append_all (vs ++ [v])).input_.newest_index }] ∧
      s1.input_ = (s.input_append_all (vs ++ [v])).input_ ∧
      s1.input_hash_ = s1.input_.next_timeindex := by
  have hi : s.Inv := (XenomaiCanbus.run_inv ops s0 s (XenomaiCanbus.create_inv dev name s0 h0).1
    hrun).1
  obtain ⟨connection, hc⟩ := hi.connected
  have hfold : (s.input_append_all (vs ++ [v])).input_ =
      (vs.foldl ThreadsafeTimeseries.append s.input_).append v := by
    simp [XenomaiCanbus.input_append_all, List.foldl_append]
  obtain ⟨hnext, hcap⟩ := ThreadsafeTimeseries.next_timeindex_foldl_append vs s.input_
  have hcur : (s.input_append_all (vs ++ [v])).input_.current_element = some v := by
    rw [hfold]
    exact ThreadsafeTimeseries.current_element_append _ v (by rw [hcap]; exact hi.capacity)
  have hne : (s.input_append_all (vs ++ [v])).input_.next_timeindex ≠
      (s.input_append_all (vs ++ [v])).input_hash_ := by
    rw [hfold, (ThreadsafeTimeseries.next_timeindex_append _ v).1, hnext]
    have := hi.watermark
    show _ ≠ s.input_hash_
    omega
  have hsf := send_frame_ok v hv
  have hc2 : (s.input_append_all (vs ++ [v])).connection_info_ = some connection := hc
  have hsend : (s.input_append_all (vs ++ [v])).send_if_input_changed = .ok
      { s.input_append_all (vs ++ [v]) with
        sent := (s.input_append_all (vs ++ [v])).sent ++
          [{ socket := connection.socket
             can_frame :=
              { can_id := v.id, can_dlc := v.dlc,
                data := fun j => if j.val < v.dlc then v.data j else Bytes8.indeterminate j }
             address := connection.send_addr
             timeindex := (s.input_append_all (vs ++ [v])).input_.newest_index }]
        input_hash_ := (s.input_append_all (vs ++ [v])).input_.next_timeindex } := by
    unfold XenomaiCanbus.send_if_input_changed
    simp only [hne, hcur, hsf, hc2, if_true, ne_eq, not_false_eq_true]
  refine ⟨_, connection, _, hc, hsf, rfl, rfl, ?_, hsend, rfl, rfl, rfl⟩
  intro j hj
  simp [hj]

/-- Witness for claim C4: on the driver constructed on `dev_ok`, two frames are
appended and the second one is of the data model. -/
theorem send_if_input_changed_latest_wins_witness :
    ∃ (s1 : XenomaiCanbus) (connection : CanConnection) (can_frame : can_frame_t),
      driver_ok.connection_info_ = some connection ∧
      send_frame (frame_two_bytes 2) = .ok can_frame ∧
      can_frame.can_id = (frame_two_bytes 2).id ∧ can_frame.can_dlc = (frame_two_bytes 2).dlc ∧
      (∀ j : Fin 8, j.val < (frame_two_bytes 2).dlc →
        can_frame.data j = (frame_two_bytes 2).data j) ∧
      (driver_ok.input_append_all ([frame_two_bytes 1] ++ [frame_two_bytes 2])).send_if_input_changed
        = .ok s1 ∧
      s1.sent = driver_ok.sent ++
        [{ socket := connection.socket, can_frame := can_frame,
           address := connection.send_addr,
           timeindex := (driver_ok.input_append_all
             ([frame_two_bytes 1] ++ [frame_two_bytes 2])).input_.newest_index }] ∧
      s1.input_ = (driver_ok.input_append_all
        ([frame_two_bytes 1] ++ [frame_two_bytes 2])).input_ ∧
      s1.input_hash_ = s1.input_.next_timeindex :=
  send_if_input_changed_latest_wins dev_ok "rtcan0" driver_ok driver_ok []
    XenomaiCanbus.create_dev_ok rfl [frame_two_bytes 1] (frame_two_bytes 2) (by decide)

/-- Claim C5 (idempotence of the flush): in every state of the driver, when a
call of `send_if_input_changed` returns, a second call with no append in
between returns the state unchanged, so it transmits nothing and leaves the
watermark alone, and the two calls together hand at most one frame to the bus;
and in every state a freshly constructed driver reaches through operations on
frames of the data model, the first call does return. -/
theorem send_if_input_changed_idempotent (s : XenomaiCanbus) :
    (∀ s1, s.send_if_input_changed = .ok s1 →
      s1.send_if_input_changed = .ok s1 ∧ s1.sent.length ≤ s.sent.length + 1) ∧
    (∀ (dev : RtDev) (name : String) (s0 : XenomaiCanbus) (ops : List Op),
      XenomaiCanbus.create dev name = .constructed s0 → (∀ op ∈ ops, op.well_formed) →
      s0.run ops = .ok s → ∃ s1, s.send_if_input_changed = .ok s1) := by
  constructor
  · intro s1 h
    unfold XenomaiCanbus.send_if_input_changed at h
    by_cases hne : s.input_.next_timeindex ≠ s.input_hash_
    · simp only [hne, if_true, ne_eq, not_false_eq_true] at h
      split at h
      · cases h
      · split at h
        · cases h
        · split at h
          · cases h
          · injection h with h
            subst h
            constructor
            · unfold XenomaiCanbus.send_if_input_changed
              simp
            · simp
    · simp only [hne, if_false] at h
      injection h with h
      subst h
      constructor
      · unfold XenomaiCanbus.send_if_input_changed
        simp only [hne, if_false]
      · omega
  · intro dev name s0 ops h0 hops hrun
    obtain ⟨hi0, hw0⟩ := XenomaiCanbus.create_inv dev name s0 h0
    obtain ⟨s2, hrun2, hw⟩ := XenomaiCanbus.run_total ops s0 hi0 hw0 hops
    rw [hrun] at hrun2
    injection hrun2 with hrun2
    subst hrun2
    exact XenomaiCanbus.send_if_input_changed_total s
      (XenomaiCanbus.run_inv ops s0 s hi0 hrun).1 hw

/-- Witness for claim C5: the driver constructed on `dev_ok` after one append
of a frame of the data model. -/
theorem send_if_input_changed_idempotent_witness :
    ∃ s1, (driver_ok.input_append_all [frame_two_bytes 1]).send_if_input_changed = .ok s1 ∧
      s1.send_if_input_changed = .ok s1 ∧
      s1.sent.length ≤ (driver_ok.input_append_all [frame_two_bytes 1]).sent.length + 1 := by
  obtain ⟨s1, h1⟩ :=
    (send_if_input_changed_idempotent (driver_ok.input_append_all [frame_two_bytes 1])).2
      dev_ok "rtcan0" driver_ok [Op.input_append (frame_two_bytes 1)]
      XenomaiCanbus.create_dev_ok
      (by intro op hop; simp only [List.mem_singleton] at hop; subst hop; decide)
      rfl
  exact ⟨s1, h1,
    (send_if_input_changed_idempotent (driver_ok.input_append_all [frame_two_bytes 1])).1 s1 h1⟩

/-- One operation that returns keeps the transmissions made so far, in
order, at the front of the log. -/
theorem XenomaiCanbus.step_keeps_sent (s s1 : XenomaiCanbus) (op : Op)
    (h : s.step op = .ok s1) : s.sent <+: s1.sent := by
  cases op with
  | input_append frame =>
    simp only [XenomaiCanbus.step] at h
    injection h with h
    subst h
    exact List.prefix_refl _
  | send_if_input_changed =>
    simp only [XenomaiCanbus.step] at h
    unfold XenomaiCanbus.send_if_input_changed at h
    by_cases hne : s.input_.next_timeindex ≠ s.input_hash_
    · simp only [hne, if_true, ne_eq, not_false_eq_true] at h
      split at h
      · cases h
      · split at h
        · cases h
        · split at h
          · cases h
          · injection h with h
            subst h
            exact List.prefix_append _ _
    · simp only [hne, if_false] at h
      injection h with h
      subst h
      exact List.prefix_refl _
  | loop_iteration msg =>
    obtain ⟨_, _, _, h4⟩ := XenomaiCanbus.loop_iteration_frame s s1 msg h
    rw [h4]

/-- A run that returns keeps the transmissions made so far at the front of the
log. -/
theorem XenomaiCanbus.run_keeps_sent (ops : List Op) :
    ∀ s s1 : XenomaiCanbus, s.run ops = .ok s1 → s.sent <+: s1.sent := by
  induction ops with
  | nil =>
    intro s s1 h
    simp only [XenomaiCanbus.run] at h
    injection h with h
    subst h
    exact List.prefix_refl _
  | cons op ops ih =>
    intro s s1 h
    simp only [XenomaiCanbus.run] at h
    cases hstep : s.step op with
    | error e => rw [hstep] at h; cases h
    | ok s2 =>
      rw [hstep] at h
      exact List.IsPrefix.trans (XenomaiCanbus.step_keeps_sent s s2 op hstep) (ih s2 s1 h)

/-- Claim C6: every interleaving of appends to the send channel, calls of
`send_if_input_changed` and iterations of the receive loop, on frames of the
data model and from a freshly constructed driver, runs to its last operation;
the time indices of the transmitted elements are strictly increasing in the
order of transmission; and at every point of the interleaving the watermark is
at most the watermark at the end and the transmissions made up to that point
are the first transmissions of the whole run. -/
theorem transmitted_timeindices_strictly_increasing (dev : RtDev) (name : String)
    (s0 : XenomaiCanbus) (ops : List Op)
    (h0 : XenomaiCanbus.create dev name = .constructed s0)
    (hops : ∀ op ∈ ops, op.well_formed) :
    ∃ s, s0.run ops = .ok s ∧
      s.sent_timeindices.Pairwise (· < ·) ∧
      (∀ ops1 ops2, ops = ops1 ++ ops2 →
        ∃ s1, s0.run ops1 = .ok s1 ∧ s1.run ops2 = .ok s ∧
          s1.input_hash_ ≤ s.input_hash_ ∧ s1.sent <+: s.sent) := by
  obtain ⟨hi0, hw0⟩ := XenomaiCanbus.create_inv dev name s0 h0
  obtain ⟨s, hrun, _⟩ := XenomaiCanbus.run_total ops s0 hi0 hw0 hops
  refine ⟨s, hrun, (XenomaiCanbus.run_inv ops s0 s hi0 hrun).1.sent_increasing, ?_⟩
  intro ops1 ops2 hsplit
  subst hsplit
  rw [XenomaiCanbus.run_append] at hrun
  cases h1 : s0.run ops1 with
  | error e => rw [h1] at hrun; cases hrun
  | ok s1 =>
    rw [h1] at hrun
    have hi1 := (XenomaiCanbus.run_inv ops1 s0 s1 hi0 h1).1
    exact ⟨s1, rfl, hrun, (XenomaiCanbus.run_inv ops2 s1 s hi1 hrun).2,
      XenomaiCanbus.run_keeps_sent ops2 s1 s hrun⟩

/-- Witness for claim C6: append, flush, append, append, flush on the driver
constructed on `dev_ok`. -/
theorem transmitted_timeindices_strictly_increasing_witness :
    ∃ s, driver_ok.run [Op.input_append (frame_two_bytes 1), Op.send_if_input_changed,
        Op.input_append (frame_two_bytes 2), Op.input_append (frame_two_bytes 3),
        Op.send_if_input_changed] = .ok s ∧
      s.sent_timeindices.Pairwise (· < ·) ∧
      (∀ ops1 ops2, [Op.input_append (frame_two_bytes 1), Op.send_if_input_changed,
        Op.input_append (frame_two_bytes 2), Op.input_append (frame_two_bytes 3),
        Op.send_if_input_changed] = ops1 ++ ops2 →
        ∃ s1, driver_ok.run ops1 = .ok s1 ∧ s1.run ops2 = .ok s ∧
          s1.input_hash_ ≤ s.input_hash_ ∧ s1.sent <+: s.sent) :=
  transmitted_timeindices_strictly_increasing dev_ok "rtcan0" driver_ok _
    XenomaiCanbus.create_dev_ok (by decide)

/-- Claim C8: for every message read from the bus whose frame has a payload
length `n` of at most 8, with or without a timestamp, one iteration of the
receive loop on a connected driver returns and appends exactly one frame to the
receive channel; the frame has the identifier and the length of the wire frame
and its payload bytes 0 to `n - 1`; and the copy accesses exactly the indices
0 to `n - 1`, each below `n` and inside the 8-byte buffer. -/
theorem receive_path_appends_frame (s : XenomaiCanbus) (connection : CanConnection)
    (hc : s.connection_info_ = some connection) (msg : BusMessage)
    (hn : msg.can_frame.can_dlc ≤ 8) :
    ∃ frame : CanFrame,
      s.receive_frame msg = .ok (frame, List.range msg.can_frame.can_dlc) ∧
      s.loop_iteration msg = .ok { s with output_ := s.output_.append frame } ∧
      (s.output_.append frame).appended = s.output_.appended + 1 ∧
      (1 ≤ s.output_.capacity → (s.output_.append frame).current_element = some frame) ∧
      frame.id = msg.can_frame.can_id ∧
      frame.dlc = msg.can_frame.can_dlc ∧
      (∀ j : Fin 8, j.val < msg.can_frame.can_dlc → frame.data j = msg.can_frame.data j) ∧
      (∀ i ∈ List.range msg.can_frame.can_dlc, i < msg.can_frame.can_dlc ∧ i < 8) := by
  obtain ⟨data, h1, h2, _⟩ := XenomaiCanbus.receive_frame_ok s connection hc msg hn
  refine ⟨_, h1, ?_, rfl, ?_, rfl, rfl, h2, ?_⟩
  · simp only [XenomaiCanbus.loop_iteration, h1]
  · intro hcap
    exact ThreadsafeTimeseries.current_element_append _ _ hcap
  · intro i hi
    rw [List.mem_range] at hi
    exact ⟨hi, by omega⟩

/-- Witness for claim C8: the driver constructed on `dev_ok` receives a frame of
two payload bytes without a timestamp. -/
theorem receive_path_appends_frame_witness :
    ∃ frame : CanFrame,
      driver_ok.receive_frame message_two_bytes
        = .ok (frame, List.range message_two_bytes.can_frame.can_dlc) ∧
      driver_ok.loop_iteration message_two_bytes
        = .ok { driver_ok with output_ := driver_ok.output_.append frame } ∧
      (driver_ok.output_.append frame).appended = driver_ok.output_.appended + 1 ∧
      (1 ≤ driver_ok.output_.capacity →
        (driver_ok.output_.append frame).current_element = some frame) ∧
      frame.id = message_two_bytes.can_frame.can_id ∧
      frame.dlc = message_two_bytes.can_frame.can_dlc ∧
      (∀ j : Fin 8, j.val < message_two_bytes.can_frame.can_dlc →
        frame.data j = message_two_bytes.can_frame.data j) ∧
      (∀ i ∈ List.range message_two_bytes.can_frame.can_dlc,
        i < message_two_bytes.can_frame.can_dlc ∧ i < 8) :=
  receive_path_appends_frame driver_ok _ rfl message_two_bytes (by decide)

/-- Claim C9 as stated fails when the creation of the socket fails: the
constructor ends the process with `exit(-1)`; no construction failure reaches
the caller. -/
theorem construction_failure_not_surfaced :
    dev_no_socket.rt_dev_socket < 0 ∧
    XenomaiCanbus.create dev_no_socket "rtcan0" = .process_exit (-1) driver_unconnected ∧
    ¬ ∃ at_failure, XenomaiCanbus.create dev_no_socket "rtcan0" = .failed at_failure := by
  refine ⟨by decide, rfl, ?_⟩
  rintro ⟨at_failure, h⟩
  have h2 : XenomaiCanbus.create dev_no_socket "rtcan0"
      = .process_exit (-1) driver_unconnected := rfl
  rw [h2] at h
  cases h

/-- The constructor's call of `setup_can`, with the error mask 0, ends the
process exactly when a step of the acquisition fails, and returns the
connection on the socket and the interface index obtained otherwise. -/
theorem setup_can_mask_zero (dev : RtDev) (name : String) :
    (dev.acquisition_fails → ∃ closed, setup_can dev name 0 = .exited (-1) closed) ∧
    (¬ dev.acquisition_fails → setup_can dev name 0 = .returned
      { send_addr := { can_family := AF_CAN, can_ifindex := dev.ifr_ifindex }
        socket := dev.rt_dev_socket }) := by
  unfold setup_can RtDev.acquisition_fails
  simp only [Nat.zero_mod, ne_eq, not_true_eq_false, false_and, if_false]
  constructor
  · intro h
    split_ifs with h1 h2 h3 h4
    · exact ⟨_, rfl⟩
    · exact ⟨_, rfl⟩
    · exact ⟨_, rfl⟩
    · exact ⟨_, rfl⟩
    · exfalso
      rcases h with h | h | h | h
      · exact h1 h
      · exact h2 h
      · exact h3 h
      · exact h4 h
  · intro h
    simp only [not_or] at h
    obtain ⟨h1, h2, h3, h4⟩ := h
    simp only [h1, h2, h3, h4, if_false]

/-- Claim C9, amended.  When the creation of the socket, the lookup of the
interface index or the bind fails (or, compiled with `__XENO__`, the enabling
of timestamps), the constructor ends the process with `exit(-1)`: at that point
no connection is stored and the receive loop is not started, no driver object
is returned and no failure reaches the caller.  The constructor passes the
error mask 0, so the step that sets the error mask is not run during
construction: whatever that step would return, the construction ends the same
way, and when none of the other steps fails the driver is constructed, with the
connection stored and the receive loop started, also when setting the error
mask would fail.  In `setup_can` called with a mask that is not 0, once the
socket and the interface index are obtained a failure to set the mask ends the
process with `exit(-1)` after closing the socket; with the mask 0 that failure
changes nothing. -/
theorem construction_failure_ends_process (dev : RtDev) (name : String) :
    (dev.acquisition_fails →
      (∃ at_exit, XenomaiCanbus.create dev name = .process_exit (-1) at_exit ∧
        at_exit.connection_info_ = none ∧ at_exit.loop_started = false) ∧
      (∀ driver, XenomaiCanbus.create dev name ≠ .constructed driver) ∧
      (∀ at_failure, XenomaiCanbus.create dev name ≠ .failed at_failure)) ∧
    (¬ dev.acquisition_fails →
      ∃ driver, XenomaiCanbus.create dev name = .constructed driver ∧
        driver.connection_info_ = some
          { send_addr := { can_family := AF_CAN, can_ifindex := dev.ifr_ifindex }
            socket := dev.rt_dev_socket } ∧
        driver.loop_started = true) ∧
    (∀ r : Int, XenomaiCanbus.create { dev with rt_dev_setsockopt := r } name
      = XenomaiCanbus.create dev name) ∧
    (∀ err_mask : Nat, err_mask % 4294967296 ≠ 0 → 0 ≤ dev.rt_dev_socket →
      0 ≤ dev.rt_dev_ioctl_ifindex → dev.rt_dev_setsockopt < 0 →
      setup_can dev name err_mask = .exited (-1) (some dev.rt_dev_socket)) ∧
    (∀ (err_mask : Nat) (r : Int), err_mask % 4294967296 = 0 →
      setup_can { dev with rt_dev_setsockopt := r } name err_mask = setup_can dev name 0) := by
  obtain ⟨hfail, hok⟩ := setup_can_mask_zero dev name
  refine ⟨?_, ?_, ?_, ?_, ?_⟩
  · intro h
    obtain ⟨closed, hexit⟩ := hfail h
    have hcreate : XenomaiCanbus.create dev name = .process_exit (-1)
        { connection_info_ := none
          input_ := ThreadsafeTimeseries.create 1000
          input_hash_ :=
            (ThreadsafeTimeseries.create 1000 : ThreadsafeTimeseries CanFrame).next_timeindex
          output_ := ThreadsafeTimeseries.create 1000
          sent := []
          loop_started := false } := by
      simp only [XenomaiCanbus.create, hexit]
    refine ⟨⟨_, hcreate, rfl, rfl⟩, ?_, ?_⟩
    · intro driver hd
      rw [hcreate] at hd
      cases hd
    · intro at_failure hd
      rw [hcreate] at hd
      cases hd
  · intro h
    have hret := hok h
    have hcreate : XenomaiCanbus.create dev name = .constructed
        { connection_info_ := some
            { send_addr := { can_family := AF_CAN, can_ifindex := dev.ifr_ifindex }
              socket := dev.rt_dev_socket }
          input_ := ThreadsafeTimeseries.create 1000
          input_hash_ :=
            (ThreadsafeTimeseries.create 1000 : ThreadsafeTimeseries CanFrame).next_timeindex
          output_ := ThreadsafeTimeseries.create 1000
          sent := []
          loop_started := true } := by
      simp only [XenomaiCanbus.create, hret]
    exact ⟨_, hcreate, rfl, rfl⟩
  · intro r
    simp only [XenomaiCanbus.create, setup_can, Nat.zero_mod, ne_eq, not_true_eq_false,
      false_and, if_false]
  · intro err_mask hm h1 h2 h3
    unfold setup_can
    simp only [not_lt.mpr h1, not_lt.mpr h2, hm, h3, if_false, ne_eq, not_false_eq_true,
      and_self, if_true]
  · intro err_mask r hm
    simp only [setup_can, hm, Nat.zero_mod, ne_eq, not_true_eq_false, false_and, if_false]

/-- Witness for claim C9, amended: on `dev_no_socket` the creation of the
socket fails and the process is ended; on `dev_no_error_mask` only the setting
of the error mask would fail, the driver is constructed, and `setup_can` with
the mask 1 ends the process. -/
theorem construction_failure_ends_process_witness :
    ((∃ at_exit, XenomaiCanbus.create dev_no_socket "rtcan0" = .process_exit (-1) at_exit ∧
        at_exit.connection_info_ = none ∧ at_exit.loop_started = false) ∧
      (∀ driver, XenomaiCanbus.create dev_no_socket "rtcan0" ≠ .constructed driver) ∧
      (∀ at_failure, XenomaiCanbus.create dev_no_socket "rtcan0" ≠ .failed at_failure)) ∧
    (∃ driver, XenomaiCanbus.create dev_no_error_mask "rtcan0" = .constructed driver ∧
      driver.connection_info_ = some
        { send_addr := { can_family := AF_CAN, can_ifindex := dev_no_error_mask.ifr_ifindex }
          socket := dev_no_error_mask.rt_dev_socket } ∧
      driver.loop_started = true) ∧
    setup_can dev_no_error_mask "rtcan0" 1
      = .exited (-1) (some dev_no_error_mask.rt_dev_socket) :=
  ⟨(construction_failure_ends_process dev_no_socket "rtcan0").1 (by decide),
    (construction_failure_ends_process dev_no_error_mask "rtcan0").2.1 (by decide),
    (construction_failure_ends_process dev_no_error_mask "rtcan0").2.2.2.1 1
      (by decide) (by decide) (by decide) (by decide)⟩

end blmc_drivers
